import Mathlib

/-!
Verification of the parallel image processing system (sender / worker / filters /
pgm_image).  The definitions below are a shallow embedding of the Python sources:
byte buffers become `List Nat` (each element a byte value), Python dicts become
association data, fallible code returns `Except`, and the worker pool's
interleaved execution is modelled by an explicit labelled step function.
-/

namespace PIPS

/-- Image buffer (pgm_image.py, class PGMImage): width `w`, height `h`,
declared maximum intensity `maxv` and the row-major pixel byte buffer `data`. -/
structure PGMImage where
  w : Nat
  h : Nat
  maxv : Nat
  data : List Nat
deriving DecidableEq, Repr

/-- PGMImage.get_pixel (pgm_image.py 121-136): bounds-checked read returning 0
out of range, otherwise `data[y*w + x]`.  `getD _ 0` stands for the Python
index access, whose out-of-range IndexError is unreachable under the module
invariant `data.length = w * h` assumed by every theorem that uses it. -/
def PGMImage.get_pixel (img : PGMImage) (x y : Nat) : Nat :=
  if x < img.w ∧ y < img.h then img.data.getD (y * img.w + x) 0 else 0

/-- PGMImage.get_pixel_row (pgm_image.py 157-172): the `w`-byte slice
`data[row*w : row*w + w]`, or `[]` when the row index is out of range. -/
def PGMImage.get_pixel_row (img : PGMImage) (row : Nat) : List Nat :=
  if row < img.h then (img.data.drop (row * img.w)).take img.w else []

/-- PGMImage.set_pixel_row (pgm_image.py 174-192): no-op unless
`row < h` and the replacement has length exactly `w`; otherwise the slice
assignment `data[row*w : row*w + w] = rowData` (Python slice assignment on a
bytearray is exactly `take start ++ rowData ++ drop (start + w)`). -/
def PGMImage.set_pixel_row (img : PGMImage) (row : Nat) (rowData : List Nat) : PGMImage :=
  if row < img.h ∧ rowData.length = img.w then
    { img with data :=
        img.data.take (row * img.w) ++ rowData ++ img.data.drop (row * img.w + img.w) }
  else img

/-- Task (worker.py 18-28): a contiguous row range, `row_start` inclusive,
`row_end` exclusive. -/
structure Task where
  row_start : Nat
  row_end : Nat
deriving DecidableEq, Repr

/-- While-loop of ParallelImageProcessor.create_tasks (worker.py 125-133),
started at a given `row_start`, with explicit fuel: each iteration advances
`row_start` by at least one row when `rows_per_task` is at least 1, so fuel
`image_height` always suffices; the Python loop never terminates when
`rows_per_task = 0` (unreachable: main_worker always passes `max 1 _`), and
exhausted fuel models that divergence domain by returning `[]`. -/
def create_tasks_from (fuel row_start image_height rows_per_task : Nat) : List Task :=
  match fuel with
  | 0 => []
  | fuel + 1 =>
    if row_start < image_height then
      Task.mk row_start (min (row_start + rows_per_task) image_height) ::
        create_tasks_from fuel (min (row_start + rows_per_task) image_height)
          image_height rows_per_task
    else []

/-- ParallelImageProcessor.create_tasks (worker.py 115-139): the full ordered
task sequence enqueued for a job (the per-task semaphore releases are modelled
in the pool semantics below). -/
def create_tasks (image_height rows_per_task : Nat) : List Task :=
  create_tasks_from image_height 0 image_height rows_per_task

/-- Row range covered by one task, as the list of its row indices. -/
def Task.rows (t : Task) : List Nat :=
  List.range' t.row_start (t.row_end - t.row_start)

lemma create_tasks_from_zero (s H rpt : Nat) :
    create_tasks_from 0 s H rpt = [] := rfl

lemma create_tasks_from_stop (fuel s H rpt : Nat) (h : ¬s < H) :
    create_tasks_from fuel s H rpt = [] := by
  cases fuel with
  | zero => rfl
  | succ fuel => rw [create_tasks_from, if_neg h]

lemma create_tasks_from_cons (fuel s H rpt : Nat) (h : s < H) :
    create_tasks_from (fuel + 1) s H rpt =
      Task.mk s (min (s + rpt) H) ::
        create_tasks_from fuel (min (s + rpt) H) H rpt := by
  rw [create_tasks_from, if_pos h]

lemma create_tasks_from_flat (rpt H : Nat) (hrpt : 0 < rpt) :
    ∀ fuel s, H - s ≤ fuel →
      (create_tasks_from fuel s H rpt).flatMap Task.rows = List.range' s (H - s) := by
  intro fuel
  induction fuel with
  | zero =>
    intro s hs
    rw [create_tasks_from_zero]
    have : H - s = 0 := by omega
    rw [this]
    rfl
  | succ fuel ih =>
    intro s hs
    by_cases hlt : s < H
    · rw [create_tasks_from_cons fuel s H rpt hlt, List.flatMap_cons,
        ih (min (s + rpt) H) (by omega)]
      have h2 : s + (min (s + rpt) H - s) = min (s + rpt) H := by omega
      have h3 : (H - min (s + rpt) H) + (min (s + rpt) H - s) = H - s := by omega
      rw [Task.rows, ← h3,
        ← List.range'_append_1 s (min (s + rpt) H - s) (H - min (s + rpt) H), h2]
    · rw [create_tasks_from_stop _ _ _ _ hlt]
      have : H - s = 0 := by omega
      rw [this]
      rfl

lemma create_tasks_from_bounds (rpt H : Nat) (hrpt : 0 < rpt) :
    ∀ fuel s, ∀ t ∈ create_tasks_from fuel s H rpt,
      t.row_start < t.row_end ∧ t.row_end - t.row_start ≤ rpt ∧ t.row_end ≤ H := by
  intro fuel
  induction fuel with
  | zero =>
    intro s t ht
    rw [create_tasks_from_zero] at ht
    exact absurd ht (List.not_mem_nil t)
  | succ fuel ih =>
    intro s t ht
    by_cases hlt : s < H
    · rw [create_tasks_from_cons fuel s H rpt hlt] at ht
      rcases List.mem_cons.mp ht with h1 | h2
      · subst h1
        exact ⟨by show s < min (s + rpt) H; omega,
          by show min (s + rpt) H - s ≤ rpt; omega,
          by show min (s + rpt) H ≤ H; omega⟩
      · exact ih (min (s + rpt) H) t h2
    · rw [create_tasks_from_stop _ _ _ _ hlt] at ht
      exact absurd ht (List.not_mem_nil t)

lemma create_tasks_from_ne_nil (fuel s H rpt : Nat) (hs : s < H)
    (hfuel : H - s ≤ fuel) :
    create_tasks_from fuel s H rpt ≠ [] := by
  rcases fuel with _ | fuel
  · exact absurd hfuel (by omega)
  · rw [create_tasks_from_cons fuel s H rpt hs]
    exact List.cons_ne_nil _ _

lemma create_tasks_from_full (rpt H : Nat) (hrpt : 0 < rpt) :
    ∀ fuel s, H - s ≤ fuel →
      ∀ t ∈ (create_tasks_from fuel s H rpt).dropLast,
        t.row_end - t.row_start = rpt := by
  intro fuel
  induction fuel with
  | zero =>
    intro s hs t ht
    rw [create_tasks_from_zero] at ht
    exact absurd ht (List.not_mem_nil t)
  | succ fuel ih =>
    intro s hs t ht
    by_cases hlt : s < H
    · rw [create_tasks_from_cons fuel s H rpt hlt] at ht
      by_cases hrest : create_tasks_from fuel (min (s + rpt) H) H rpt = []
      · rw [hrest] at ht
        exact absurd ht (List.not_mem_nil t)
      · rw [List.dropLast_cons_of_ne_nil hrest] at ht
        rcases List.mem_cons.mp ht with h1 | h2
        · subst h1
          have hlt2 : min (s + rpt) H < H := by
            by_contra hge
            exact hrest (create_tasks_from_stop _ _ _ _ (by omega))
          simp
          omega
        · exact ih (min (s + rpt) H) (by omega) t h2
    · rw [create_tasks_from_stop _ _ _ _ hlt] at ht
      exact absurd ht (List.not_mem_nil t)

/-- C5: for every height and every rowsPerTask at least 1, create_tasks
produces an ordered sequence of tasks whose row ranges exactly partition
the interval from 0 to the height, with no gaps and no overlaps (their
concatenation in order is exactly the ascending list of all row indices),
each task is nonempty and spans at most rowsPerTask rows, every non-final
task spans exactly rowsPerTask rows, and a height of 0 yields no tasks. -/
theorem create_tasks_partitions (H rpt : Nat) (hrpt : 1 ≤ rpt) :
    (create_tasks H rpt).flatMap Task.rows = List.range H
    ∧ (∀ t ∈ create_tasks H rpt, t.row_start < t.row_end ∧ t.row_end - t.row_start ≤ rpt)
    ∧ (∀ t ∈ (create_tasks H rpt).dropLast, t.row_end - t.row_start = rpt)
    ∧ (H = 0 → create_tasks H rpt = []) := by
  refine ⟨?_, ?_, ?_, ?_⟩
  · rw [create_tasks, create_tasks_from_flat rpt H hrpt H 0 (by omega),
      List.range_eq_range']
    simp
  · intro t ht
    have := create_tasks_from_bounds rpt H hrpt H 0 t ht
    exact ⟨this.1, this.2.1⟩
  · exact create_tasks_from_full rpt H hrpt H 0 (by omega)
  · intro h0
    subst h0
    rfl

/-- Witness for create_tasks_partitions at height 5 and 2 rows per task. -/
theorem create_tasks_partitions_witness :
    1 ≤ 2
    ∧ ((create_tasks 5 2).flatMap Task.rows = List.range 5
        ∧ (∀ t ∈ create_tasks 5 2, t.row_start < t.row_end ∧ t.row_end - t.row_start ≤ 2)
        ∧ (∀ t ∈ (create_tasks 5 2).dropLast, t.row_end - t.row_start = 2)
        ∧ (5 = 0 → create_tasks 5 2 = [])) :=
  ⟨by decide, create_tasks_partitions 5 2 (by decide)⟩

/-- apply_negative_filter (filters.py 10-37): for each row y in
[row_start, row_end) and each column x, append 255 - get_pixel(x, y). -/
def apply_negative_filter (image : PGMImage) (row_start row_end : Nat) : List Nat :=
  (List.range' row_start (row_end - row_start)).flatMap fun y =>
    (List.range image.w).map fun x => 255 - image.get_pixel x y

/-- apply_slice_filter (filters.py 40-72): for each sample in the row range,
append 255 when the sample is at most t1 or at least t2, else the sample. -/
def apply_slice_filter (image : PGMImage) (row_start row_end t1 t2 : Nat) : List Nat :=
  (List.range' row_start (row_end - row_start)).flatMap fun y =>
    (List.range image.w).map fun x =>
      if image.get_pixel x y ≤ t1 ∨ t2 ≤ image.get_pixel x y then 255
      else image.get_pixel x y

/-- process_image_rows (filters.py 75-98): the mode dispatcher; mode 0 runs
the negative filter, mode 1 the slice filter, anything else raises
ValueError.  `mode` is `Int` because main_worker uses -1 as a sentinel. -/
def process_image_rows (image : PGMImage) (row_start row_end : Nat) (mode : Int)
    (t1 t2 : Nat) : Except String (List Nat) :=
  if mode = 0 then .ok (apply_negative_filter image row_start row_end)
  else if mode = 1 then .ok (apply_slice_filter image row_start row_end t1 t2)
  else .error ("Modo de processamento invalido: " ++ toString mode)

lemma flatMap_rows_map (data : List Nat) (w : Nat) (f : Nat → Nat) :
    ∀ n rs, ((List.range' rs n).flatMap fun y =>
        (List.range w).map fun x => f (data.getD (y * w + x) 0)) =
      (List.range (n * w)).map fun i => f (data.getD (rs * w + i) 0) := by
  intro n
  induction n with
  | zero => intro rs; simp
  | succ n ih =>
    intro rs
    rw [List.range'_succ, List.flatMap_cons, ih (rs + 1)]
    have hsplit : (n + 1) * w = w + n * w := by ring
    rw [hsplit, List.range_add, List.map_append, List.map_map]
    congr 1
    apply List.map_congr_left
    intro a ha
    have : rs * w + (w + a) = (rs + 1) * w + a := by ring
    simp only [Function.comp_apply, this]

lemma getD_map_range (g : Nat → Nat) (n i : Nat) (hi : i < n) :
    (((List.range n).map g).getD i 0) = g i := by
  have hlen : i < ((List.range n).map g).length := by
    rw [List.length_map, List.length_range]; exact hi
  rw [List.getD_eq_getElem _ _ hlen, List.getElem_map, List.getElem_range]

lemma get_pixel_in_range (img : PGMImage) (x y : Nat) (hx : x < img.w) (hy : y < img.h) :
    img.get_pixel x y = img.data.getD (y * img.w + x) 0 := by
  rw [PGMImage.get_pixel, if_pos ⟨hx, hy⟩]

lemma get_pixel_flatMap_congr (img : PGMImage) (rs re : Nat) (hre : re ≤ img.h)
    (f : Nat → Nat) :
    ((List.range' rs (re - rs)).flatMap fun y =>
        (List.range img.w).map fun x => f (img.get_pixel x y)) =
      ((List.range' rs (re - rs)).flatMap fun y =>
        (List.range img.w).map fun x => f (img.data.getD (y * img.w + x) 0)) := by
  rw [List.flatMap_def, List.flatMap_def]
  congr 1
  apply List.map_congr_left
  intro y hy
  have hy' : y < img.h := by
    have := List.mem_range'_1.mp hy
    omega
  apply List.map_congr_left
  intro x hx
  rw [get_pixel_in_range img x y (List.mem_range.mp hx) hy']

lemma apply_negative_eq_map (img : PGMImage) (rs re : Nat) (hre : re ≤ img.h) :
    apply_negative_filter img rs re =
      (List.range ((re - rs) * img.w)).map
        fun i => 255 - img.data.getD (rs * img.w + i) 0 := by
  rw [apply_negative_filter, get_pixel_flatMap_congr img rs re hre (fun s => 255 - s),
    flatMap_rows_map img.data img.w (fun s => 255 - s) (re - rs) rs]

lemma apply_slice_eq_map (img : PGMImage) (rs re t1 t2 : Nat) (hre : re ≤ img.h) :
    apply_slice_filter img rs re t1 t2 =
      (List.range ((re - rs) * img.w)).map
        fun i =>
          if img.data.getD (rs * img.w + i) 0 ≤ t1 ∨ t2 ≤ img.data.getD (rs * img.w + i) 0
          then 255 else img.data.getD (rs * img.w + i) 0 := by
  rw [apply_slice_filter,
    get_pixel_flatMap_congr img rs re hre (fun s => if s ≤ t1 ∨ t2 ≤ s then 255 else s),
    flatMap_rows_map img.data img.w (fun s => if s ≤ t1 ∨ t2 ≤ s then 255 else s) (re - rs) rs]

/-- C8: over a valid row range the negative filter yields a buffer of length
(row_end - row_start) * width whose every sample is 255 minus the
corresponding input sample; the result ignores the declared max-intensity;
and running the negative filter twice over the whole image reproduces the
original buffer exactly. -/
theorem apply_negative_filter_spec (img : PGMImage) (rs re : Nat)
    (h1 : rs ≤ re) (h2 : re ≤ img.h)
    (hlen : img.data.length = img.w * img.h) (hb : ∀ b ∈ img.data, b < 256) :
    (apply_negative_filter img rs re).length = (re - rs) * img.w
    ∧ (∀ i, i < (re - rs) * img.w →
        (apply_negative_filter img rs re).getD i 0 =
          255 - img.data.getD (rs * img.w + i) 0)
    ∧ (∀ v, apply_negative_filter { img with maxv := v } rs re =
        apply_negative_filter img rs re)
    ∧ apply_negative_filter { img with data := apply_negative_filter img 0 img.h } 0 img.h
        = img.data := by
  refine ⟨?_, ?_, ?_, ?_⟩
  · rw [apply_negative_eq_map img rs re h2, List.length_map, List.length_range]
  · intro i hi
    rw [apply_negative_eq_map img rs re h2,
      getD_map_range (fun i => 255 - img.data.getD (rs * img.w + i) 0) _ i hi]
  · intro v
    rfl
  · have hfull : apply_negative_filter img 0 img.h =
        (List.range (img.h * img.w)).map fun i => 255 - img.data.getD i 0 := by
      rw [apply_negative_eq_map img 0 img.h (le_refl _)]
      simp
    have houter := apply_negative_eq_map
      { img with data := apply_negative_filter img 0 img.h } 0 img.h (le_refl img.h)
    simp only [Nat.sub_zero, Nat.zero_mul, Nat.zero_add] at houter
    rw [houter]
    show (List.range (img.h * img.w)).map
        (fun i => 255 - (apply_negative_filter img 0 img.h).getD i 0)
      = img.data
    have hdata : img.data = (List.range (img.h * img.w)).map fun i => img.data.getD i 0 := by
      apply List.ext_getElem
      · rw [List.length_map, List.length_range, hlen]; ring
      · intro n h1' h2'
        rw [List.getElem_map, List.getElem_range, List.getD_eq_getElem _ _ h1']
    rw [hfull]
    conv_rhs => rw [hdata]
    apply List.map_congr_left
    intro i hi
    have hi' : i < img.h * img.w := List.mem_range.mp hi
    rw [getD_map_range (fun i => 255 - img.data.getD i 0) _ i hi']
    have hcomm : img.w * img.h = img.h * img.w := Nat.mul_comm _ _
    have hmem : img.data.getD i 0 ∈ img.data := by
      have hlt : i < img.data.length := by rw [hlen]; omega
      rw [List.getD_eq_getElem _ _ hlt]
      exact List.getElem_mem hlt
    have := hb _ hmem
    omega

/-- Witness for apply_negative_filter_spec on the 2 by 2 image with samples
10, 20, 30, 40 over the full row range. -/
theorem apply_negative_filter_spec_witness :
    ((apply_negative_filter ⟨2, 2, 255, [10, 20, 30, 40]⟩ 0 2).length = 2 * 2
    ∧ (∀ i, i < 2 * 2 →
        (apply_negative_filter ⟨2, 2, 255, [10, 20, 30, 40]⟩ 0 2).getD i 0 =
          255 - ([10, 20, 30, 40] : List Nat).getD (0 * 2 + i) 0)
    ∧ (∀ v, apply_negative_filter ⟨2, 2, v, [10, 20, 30, 40]⟩ 0 2 =
        apply_negative_filter ⟨2, 2, 255, [10, 20, 30, 40]⟩ 0 2)
    ∧ apply_negative_filter
        ⟨2, 2, 255, apply_negative_filter ⟨2, 2, 255, [10, 20, 30, 40]⟩ 0 2⟩ 0 2
        = [10, 20, 30, 40])
    ∧ apply_negative_filter ⟨2, 2, 255, [10, 20, 30, 40]⟩ 0 2 = [245, 235, 225, 215] :=
  ⟨apply_negative_filter_spec ⟨2, 2, 255, [10, 20, 30, 40]⟩ 0 2 (by decide) (by decide)
    (by decide) (by decide), by decide⟩

/-- C9: over a valid row range the range-threshold filter maps every sample s
to 255 when s is at most t1 or at least t2 and to s itself otherwise; at
thresholds t1 = 50 and t2 = 200 the samples 50, 51, 200, 199 map to
255, 51, 255, 199 respectively. -/
theorem apply_slice_filter_spec (img : PGMImage) (rs re t1 t2 : Nat)
    (h2 : re ≤ img.h) (hlen : img.data.length = img.w * img.h) :
    (apply_slice_filter img rs re t1 t2).length = (re - rs) * img.w
    ∧ (∀ i, i < (re - rs) * img.w →
        (apply_slice_filter img rs re t1 t2).getD i 0 =
          if img.data.getD (rs * img.w + i) 0 ≤ t1
              ∨ t2 ≤ img.data.getD (rs * img.w + i) 0
          then 255 else img.data.getD (rs * img.w + i) 0)
    ∧ apply_slice_filter ⟨4, 1, 255, [50, 51, 200, 199]⟩ 0 1 50 200
        = [255, 51, 255, 199] := by
  refine ⟨?_, ?_, by decide⟩
  · rw [apply_slice_eq_map img rs re t1 t2 h2, List.length_map, List.length_range]
  · intro i hi
    rw [apply_slice_eq_map img rs re t1 t2 h2]
    exact getD_map_range _ _ i hi

/-- Witness for apply_slice_filter_spec on the boundary image from the spec. -/
theorem apply_slice_filter_spec_witness :
    (apply_slice_filter ⟨4, 1, 255, [50, 51, 200, 199]⟩ 0 1 50 200).length = (1 - 0) * 4
    ∧ (∀ i, i < (1 - 0) * 4 →
        (apply_slice_filter ⟨4, 1, 255, [50, 51, 200, 199]⟩ 0 1 50 200).getD i 0 =
          if ([50, 51, 200, 199] : List Nat).getD (0 * 4 + i) 0 ≤ 50
              ∨ 200 ≤ ([50, 51, 200, 199] : List Nat).getD (0 * 4 + i) 0
          then 255 else ([50, 51, 200, 199] : List Nat).getD (0 * 4 + i) 0)
    ∧ apply_slice_filter ⟨4, 1, 255, [50, 51, 200, 199]⟩ 0 1 50 200
        = [255, 51, 255, 199] :=
  apply_slice_filter_spec ⟨4, 1, 255, [50, 51, 200, 199]⟩ 0 1 50 200
    (by decide) (by decide)

/-- Little-endian encoding of one unsigned 32-bit value into four bytes, as
produced for each field by struct.pack with format '<6I' (sender.py 36). -/
def toLE32 (n : Nat) : List Nat :=
  [n % 256, n / 256 % 256, n / 65536 % 256, n / 16777216 % 256]

/-- Little-endian decoding of the four bytes at offset `off`, as consumed for
each field by struct.unpack with format '<6I' (sender.py 52). -/
def fromLE32 (bs : List Nat) (off : Nat) : Nat :=
  bs.getD off 0 + 256 * bs.getD (off + 1) 0
    + 65536 * bs.getD (off + 2) 0 + 16777216 * bs.getD (off + 3) 0

/-- ImageHeader (sender.py 14-26): the six wire-header fields. -/
structure ImageHeader where
  w : Nat
  h : Nat
  maxv : Nat
  mode : Nat
  t1 : Nat
  t2 : Nat
deriving DecidableEq, Repr

/-- ImageHeader.pack (sender.py 28-36): struct.pack of the six fields with
format '<6I', little-endian in order w, h, maxv, mode, t1, t2.  struct.pack
raises when a field does not fit in an unsigned 32-bit integer, hence the
Option. -/
def ImageHeader.pack (hd : ImageHeader) : Option (List Nat) :=
  if hd.w < 4294967296 ∧ hd.h < 4294967296 ∧ hd.maxv < 4294967296
      ∧ hd.mode < 4294967296 ∧ hd.t1 < 4294967296 ∧ hd.t2 < 4294967296 then
    some (toLE32 hd.w ++ toLE32 hd.h ++ toLE32 hd.maxv
      ++ toLE32 hd.mode ++ toLE32 hd.t1 ++ toLE32 hd.t2)
  else none

/-- ImageHeader.unpack (sender.py 38-53): rejects any byte string whose
length is not exactly 24, otherwise decodes the six little-endian fields. -/
def ImageHeader.unpack (data : List Nat) : Except String ImageHeader :=
  if data.length = 24 then
    .ok ⟨fromLE32 data 0, fromLE32 data 4, fromLE32 data 8,
      fromLE32 data 12, fromLE32 data 16, fromLE32 data 20⟩
  else
    .error ("Tamanho de dados invalido: " ++ toString data.length ++ " bytes")

lemma fromLE32_toLE32 (n : Nat) (hn : n < 4294967296) :
    fromLE32 (toLE32 n) 0 = n := by
  simp only [toLE32, fromLE32, List.getD_cons_zero, List.getD_cons_succ]
  omega

/-- C6: a header whose six fields fit in unsigned 32-bit integers packs to
exactly 24 bytes holding the fields little-endian in the order w, h, maxv,
mode, t1, t2; unpacking those bytes returns the identical header; and unpack
rejects every byte string whose length is not 24. -/
theorem header_pack_unpack (hd : ImageHeader)
    (hw : hd.w < 4294967296) (hh : hd.h < 4294967296) (hm : hd.maxv < 4294967296)
    (hmo : hd.mode < 4294967296) (ht1 : hd.t1 < 4294967296) (ht2 : hd.t2 < 4294967296) :
    hd.pack = some (toLE32 hd.w ++ toLE32 hd.h ++ toLE32 hd.maxv
        ++ toLE32 hd.mode ++ toLE32 hd.t1 ++ toLE32 hd.t2)
    ∧ (toLE32 hd.w ++ toLE32 hd.h ++ toLE32 hd.maxv
        ++ toLE32 hd.mode ++ toLE32 hd.t1 ++ toLE32 hd.t2).length = 24
    ∧ ImageHeader.unpack (toLE32 hd.w ++ toLE32 hd.h ++ toLE32 hd.maxv
        ++ toLE32 hd.mode ++ toLE32 hd.t1 ++ toLE32 hd.t2) = .ok hd
    ∧ ∀ bs : List Nat, bs.length ≠ 24 →
        ImageHeader.unpack bs =
          .error ("Tamanho de dados invalido: " ++ toString bs.length ++ " bytes") := by
  obtain ⟨w, h, maxv, mode, t1, t2⟩ := hd
  simp only at hw hh hm hmo ht1 ht2
  refine ⟨?_, ?_, ?_, ?_⟩
  · rw [ImageHeader.pack, if_pos ⟨hw, hh, hm, hmo, ht1, ht2⟩]
  · simp [toLE32]
  · have hlen : (toLE32 w ++ toLE32 h ++ toLE32 maxv
        ++ toLE32 mode ++ toLE32 t1 ++ toLE32 t2).length = 24 := by simp [toLE32]
    rw [ImageHeader.unpack, if_pos hlen]
    simp only [toLE32, List.cons_append, List.nil_append]
    simp only [fromLE32, List.getD_cons_zero, List.getD_cons_succ]
    refine congrArg Except.ok ?_
    simp only [ImageHeader.mk.injEq]
    refine ⟨?_, ?_, ?_, ?_, ?_, ?_⟩ <;> omega
  · intro bs hbs
    rw [ImageHeader.unpack, if_neg hbs]

/-- Witness for header_pack_unpack at the spec round-trip header
w = 4, h = 3, maxv = 255, mode = 0, t1 = 0, t2 = 0. -/
theorem header_pack_unpack_witness :
    ImageHeader.pack ⟨4, 3, 255, 0, 0, 0⟩ =
      some (toLE32 4 ++ toLE32 3 ++ toLE32 255 ++ toLE32 0 ++ toLE32 0 ++ toLE32 0)
    ∧ ImageHeader.unpack (toLE32 4 ++ toLE32 3 ++ toLE32 255
        ++ toLE32 0 ++ toLE32 0 ++ toLE32 0) = .ok ⟨4, 3, 255, 0, 0, 0⟩
    ∧ ImageHeader.unpack [0, 0, 0] =
      .error ("Tamanho de dados invalido: " ++ toString (3 : Nat) ++ " bytes") := by
  obtain ⟨hp, -, hu, hr⟩ := header_pack_unpack ⟨4, 3, 255, 0, 0, 0⟩
    (by decide) (by decide) (by decide) (by decide) (by decide) (by decide)
  exact ⟨hp, hu, by have := hr [0, 0, 0] (by decide); simpa using this⟩

/-- Errors receive_image_data can raise (worker.py 241-242, 254-255):
malformed header (wrong header byte count) or truncated payload. -/
inductive RecvError where
  | malformed (got : Nat)
  | truncated (expected got : Nat)
deriving DecidableEq, Repr

/-- receive_image_data (worker.py 223-262) on a stream modelled as the byte
sequence the peer writes before closing; a read of n bytes yields
min n remaining bytes.  Reads 24 header bytes (error if fewer arrive),
unpacks them, builds the image from the header geometry, reads w*h pixel
bytes (error if fewer arrive) and returns the image with mode, t1, t2.
The inner unpack error branch is unreachable because the length was just
checked; it is mapped to the same malformed error Python would propagate. -/
def receive_image_data (stream : List Nat) :
    Except RecvError (PGMImage × Nat × Nat × Nat) :=
  let header_data := stream.take 24
  if header_data.length ≠ 24 then .error (.malformed header_data.length)
  else
    match ImageHeader.unpack header_data with
    | .error _ => .error (.malformed header_data.length)
    | .ok header =>
      let expected := header.w * header.h
      let pix := (stream.drop 24).take expected
      if pix.length ≠ expected then .error (.truncated expected pix.length)
      else .ok (⟨header.w, header.h, header.maxv, pix⟩, header.mode, header.t1, header.t2)

/-- C7: receive_image_data fails with a malformed-message error whenever the
stream yields fewer than 24 header bytes; otherwise it decodes the header,
fails with a truncated-payload error whenever fewer than w * h pixel bytes
are obtained, and on success returns an image whose buffer is exactly the
w * h pixel bytes after the header, together with the header's mode, t1, t2. -/
theorem receive_image_data_spec (stream : List Nat) :
    (stream.length < 24 →
      receive_image_data stream = .error (.malformed stream.length))
    ∧ (24 ≤ stream.length →
      ∃ hd, ImageHeader.unpack (stream.take 24) = .ok hd
        ∧ (stream.length - 24 < hd.w * hd.h →
            receive_image_data stream =
              .error (.truncated (hd.w * hd.h) (stream.length - 24)))
        ∧ (hd.w * hd.h ≤ stream.length - 24 →
            receive_image_data stream =
              .ok (⟨hd.w, hd.h, hd.maxv, (stream.drop 24).take (hd.w * hd.h)⟩,
                hd.mode, hd.t1, hd.t2)
            ∧ ((stream.drop 24).take (hd.w * hd.h)).length = hd.w * hd.h)) := by
  constructor
  · intro hshort
    have hlen : (stream.take 24).length = stream.length := by
      rw [List.length_take]; omega
    rw [receive_image_data]
    simp only [hlen]
    rw [if_pos (show stream.length ≠ 24 by omega)]
  · intro hlong
    have hlen24 : (stream.take 24).length = 24 := by
      rw [List.length_take]; omega
    obtain ⟨hd, hhd⟩ : ∃ hd, ImageHeader.unpack (stream.take 24) = .ok hd := by
      rw [ImageHeader.unpack, if_pos hlen24]
      exact ⟨_, rfl⟩
    refine ⟨hd, hhd, ?_, ?_⟩
    · intro hshort
      have hpix : ((stream.drop 24).take (hd.w * hd.h)).length = stream.length - 24 := by
        rw [List.length_take, List.length_drop]; omega
      rw [receive_image_data]
      simp only [if_neg (by omega : ¬(stream.take 24).length ≠ 24), hhd, hpix]
      rw [if_pos (show stream.length - 24 ≠ hd.w * hd.h by omega)]
    · intro hfit
      have hpix : ((stream.drop 24).take (hd.w * hd.h)).length = hd.w * hd.h := by
        rw [List.length_take, List.length_drop]; omega
      constructor
      · rw [receive_image_data]
        simp only [if_neg (by omega : ¬(stream.take 24).length ≠ 24), hhd,
          if_neg (by omega : ¬((stream.drop 24).take (hd.w * hd.h)).length ≠ hd.w * hd.h)]
      · exact hpix

/-- Witness for receive_image_data_spec on a 26-byte stream carrying a
2 by 1 image with mode 1 and thresholds 50 and 200. -/
theorem receive_image_data_spec_witness :
    24 ≤ (toLE32 2 ++ toLE32 1 ++ toLE32 255 ++ toLE32 1 ++ toLE32 50 ++ toLE32 200
        ++ [5, 6] : List Nat).length
    ∧ ∃ hd, ImageHeader.unpack ((toLE32 2 ++ toLE32 1 ++ toLE32 255 ++ toLE32 1
          ++ toLE32 50 ++ toLE32 200 ++ [5, 6] : List Nat).take 24) = .ok hd
        ∧ ((toLE32 2 ++ toLE32 1 ++ toLE32 255 ++ toLE32 1 ++ toLE32 50 ++ toLE32 200
              ++ [5, 6] : List Nat).length - 24 < hd.w * hd.h →
            receive_image_data (toLE32 2 ++ toLE32 1 ++ toLE32 255 ++ toLE32 1
                ++ toLE32 50 ++ toLE32 200 ++ [5, 6]) =
              .error (.truncated (hd.w * hd.h)
                ((toLE32 2 ++ toLE32 1 ++ toLE32 255 ++ toLE32 1 ++ toLE32 50
                    ++ toLE32 200 ++ [5, 6] : List Nat).length - 24)))
        ∧ (hd.w * hd.h ≤ (toLE32 2 ++ toLE32 1 ++ toLE32 255 ++ toLE32 1 ++ toLE32 50
              ++ toLE32 200 ++ [5, 6] : List Nat).length - 24 →
            receive_image_data (toLE32 2 ++ toLE32 1 ++ toLE32 255 ++ toLE32 1
                ++ toLE32 50 ++ toLE32 200 ++ [5, 6]) =
              .ok (⟨hd.w, hd.h, hd.maxv,
                  ((toLE32 2 ++ toLE32 1 ++ toLE32 255 ++ toLE32 1 ++ toLE32 50
                      ++ toLE32 200 ++ [5, 6] : List Nat).drop 24).take (hd.w * hd.h)⟩,
                hd.mode, hd.t1, hd.t2)
            ∧ (((toLE32 2 ++ toLE32 1 ++ toLE32 255 ++ toLE32 1 ++ toLE32 50
                  ++ toLE32 200 ++ [5, 6] : List Nat).drop 24).take
                (hd.w * hd.h)).length = hd.w * hd.h) :=
  ⟨by decide,
    (receive_image_data_spec (toLE32 2 ++ toLE32 1 ++ toLE32 255 ++ toLE32 1
      ++ toLE32 50 ++ toLE32 200 ++ [5, 6])).2 (by decide)⟩

lemma row_bound (row w h : Nat) (hrow : row < h) : row * w + w ≤ w * h := by
  have h1 : row + 1 ≤ h := hrow
  calc row * w + w = (row + 1) * w := by ring
    _ ≤ h * w := Nat.mul_le_mul_right w h1
    _ = w * h := Nat.mul_comm h w

lemma write_getD (d : List Nat) (start : Nat) (rd : List Nat)
    (hfit : start + rd.length ≤ d.length) (i : Nat) :
    (d.take start ++ rd ++ d.drop (start + rd.length)).getD i 0 =
      if start ≤ i ∧ i < start + rd.length then rd.getD (i - start) 0
      else d.getD i 0 := by
  have hA : (d.take start).length = start := by rw [List.length_take]; omega
  by_cases h1 : i < start
  · rw [if_neg (by omega)]
    rw [List.getD_append _ _ _ _ (by rw [List.length_append]; omega)]
    rw [List.getD_append _ _ _ _ (by omega)]
    rw [List.getD_eq_getElem _ _ (by omega : i < (d.take start).length),
      List.getD_eq_getElem _ _ (by omega : i < d.length)]
    simp only [List.getElem_take]
  · by_cases h2 : i < start + rd.length
    · rw [if_pos ⟨by omega, h2⟩]
      rw [List.getD_append _ _ _ _ (by rw [List.length_append]; omega)]
      rw [List.getD_append_right _ _ _ _ (by omega)]
      rw [hA]
    · rw [if_neg (by omega)]
      rw [List.getD_append_right _ _ _ _ (by rw [List.length_append]; omega)]
      rw [List.length_append, hA]
      by_cases h3 : i < d.length
      · rw [List.getD_eq_getElem _ _ (by rw [List.length_drop]; omega),
          List.getD_eq_getElem _ _ h3]
        have harith : start + rd.length + (i - (start + rd.length)) = i := by omega
        rw [List.getElem_drop]
        congr 1
      · rw [List.getD_eq_default _ _ (by rw [List.length_drop]; omega),
          List.getD_eq_default _ _ (by omega)]

lemma slice_as_map (l : List Nat) (a b : Nat) (hab : a + b ≤ l.length) :
    (l.drop a).take b = (List.range b).map fun j => l.getD (a + j) 0 := by
  apply List.ext_getElem
  · rw [List.length_take, List.length_drop, List.length_map, List.length_range]; omega
  · intro n h1 h2
    rw [List.length_take, List.length_drop] at h1
    simp only [List.getElem_take, List.getElem_drop, List.getElem_map, List.getElem_range]
    rw [List.getD_eq_getElem _ _ (by omega : a + n < l.length)]

lemma set_pixel_row_w (img : PGMImage) (r : Nat) (rd : List Nat) :
    (img.set_pixel_row r rd).w = img.w := by
  rw [PGMImage.set_pixel_row]; split <;> rfl

lemma set_pixel_row_h (img : PGMImage) (r : Nat) (rd : List Nat) :
    (img.set_pixel_row r rd).h = img.h := by
  rw [PGMImage.set_pixel_row]; split <;> rfl

lemma set_pixel_row_maxv (img : PGMImage) (r : Nat) (rd : List Nat) :
    (img.set_pixel_row r rd).maxv = img.maxv := by
  rw [PGMImage.set_pixel_row]; split <;> rfl

lemma set_pixel_row_length (img : PGMImage) (r : Nat) (rd : List Nat)
    (hdata : img.data.length = img.w * img.h) :
    (img.set_pixel_row r rd).data.length = img.w * img.h := by
  rw [PGMImage.set_pixel_row]
  split
  · rename_i hg
    have hb := row_bound r img.w img.h hg.1
    simp only [List.length_append, List.length_take, List.length_drop, hdata, hg.2]
    omega
  · exact hdata

lemma set_pixel_row_getD (img : PGMImage) (r : Nat) (rd : List Nat)
    (hdata : img.data.length = img.w * img.h) (hr : r < img.h)
    (hlen : rd.length = img.w) (i : Nat) :
    (img.set_pixel_row r rd).data.getD i 0 =
      if r * img.w ≤ i ∧ i < r * img.w + img.w then rd.getD (i - r * img.w) 0
      else img.data.getD i 0 := by
  rw [PGMImage.set_pixel_row, if_pos ⟨hr, hlen⟩]
  have hb := row_bound r img.w img.h hr
  have hfit : r * img.w + rd.length ≤ img.data.length := by omega
  have := write_getD img.data (r * img.w) rd hfit i
  rw [hlen] at this
  exact this

lemma set_pixel_row_slice_other (img : PGMImage) (r : Nat) (rd : List Nat)
    (row₀ : Nat) (hdata : img.data.length = img.w * img.h) (hne : r ≠ row₀)
    (hrow₀ : row₀ < img.h) :
    ((img.set_pixel_row r rd).data.drop (row₀ * img.w)).take img.w
      = (img.data.drop (row₀ * img.w)).take img.w := by
  by_cases hg : r < img.h ∧ rd.length = img.w
  · have hb₀ := row_bound row₀ img.w img.h hrow₀
    have hlen' := set_pixel_row_length img r rd hdata
    rw [slice_as_map _ _ _ (by omega : row₀ * img.w + img.w ≤ (img.set_pixel_row r rd).data.length),
      slice_as_map _ _ _ (by omega : row₀ * img.w + img.w ≤ img.data.length)]
    apply List.map_congr_left
    intro j hj
    have hj' : j < img.w := List.mem_range.mp hj
    rw [set_pixel_row_getD img r rd hdata hg.1 hg.2]
    have hd1 : row₀ + 1 ≤ r ∨ r + 1 ≤ row₀ := by omega
    have hdisj : ¬(r * img.w ≤ row₀ * img.w + j ∧ row₀ * img.w + j < r * img.w + img.w) := by
      rcases hd1 with hc | hc
      · have hmul := Nat.mul_le_mul_right img.w hc
        have hexp : (row₀ + 1) * img.w = row₀ * img.w + img.w := by ring
        intro hx
        omega
      · have hmul := Nat.mul_le_mul_right img.w hc
        have hexp : (r + 1) * img.w = r * img.w + img.w := by ring
        intro hx
        omega
    rw [if_neg hdisj]
  · rw [PGMImage.set_pixel_row, if_neg hg]

/-- Loop body of ParallelImageProcessor.assemble_result (worker.py 213-218):
a present row is copied with set_pixel_row, a missing row only triggers a
printed warning (pure I/O) and leaves the accumulator unchanged. -/
def assemble_step (store : Nat → Option (List Nat)) (acc : PGMImage) (row : Nat) :
    PGMImage :=
  match store row with
  | some row_data => acc.set_pixel_row row row_data
  | none => acc

/-- ParallelImageProcessor.assemble_result (worker.py 196-220): allocates a
zeroed output buffer of w * h bytes with the source image's dimensions and
copies each present result-store row into place, in increasing row order. -/
def assemble_result (store : Nat → Option (List Nat)) (image : PGMImage) : PGMImage :=
  (List.range image.h).foldl (assemble_step store)
    ⟨image.w, image.h, image.maxv, List.replicate (image.w * image.h) 0⟩

lemma assemble_step_w (store : Nat → Option (List Nat)) (acc : PGMImage) (r : Nat) :
    (assemble_step store acc r).w = acc.w := by
  rw [assemble_step]
  cases store r
  · rfl
  · exact set_pixel_row_w acc r _

lemma assemble_step_h (store : Nat → Option (List Nat)) (acc : PGMImage) (r : Nat) :
    (assemble_step store acc r).h = acc.h := by
  rw [assemble_step]
  cases store r
  · rfl
  · exact set_pixel_row_h acc r _

lemma assemble_step_maxv (store : Nat → Option (List Nat)) (acc : PGMImage) (r : Nat) :
    (assemble_step store acc r).maxv = acc.maxv := by
  rw [assemble_step]
  cases store r
  · rfl
  · exact set_pixel_row_maxv acc r _

lemma assemble_step_length (store : Nat → Option (List Nat)) (acc : PGMImage) (r : Nat)
    (hdata : acc.data.length = acc.w * acc.h) :
    (assemble_step store acc r).data.length = acc.w * acc.h := by
  rw [assemble_step]
  cases store r
  · exact hdata
  · exact set_pixel_row_length acc r _ hdata

lemma assemble_fold_basic (store : Nat → Option (List Nat)) :
    ∀ (L : List Nat) (acc : PGMImage), acc.data.length = acc.w * acc.h →
      (L.foldl (assemble_step store) acc).w = acc.w
      ∧ (L.foldl (assemble_step store) acc).h = acc.h
      ∧ (L.foldl (assemble_step store) acc).maxv = acc.maxv
      ∧ (L.foldl (assemble_step store) acc).data.length = acc.w * acc.h := by
  intro L
  induction L with
  | nil => intro acc h4; exact ⟨rfl, rfl, rfl, h4⟩
  | cons r L ih =>
    intro acc h4
    rw [List.foldl_cons]
    have hw := assemble_step_w store acc r
    have hh := assemble_step_h store acc r
    have hm := assemble_step_maxv store acc r
    have hl := assemble_step_length store acc r h4
    have := ih (assemble_step store acc r) (by rw [hw, hh]; exact hl)
    rw [hw, hh, hm] at this
    exact this

lemma assemble_fold_slice (store : Nat → Option (List Nat)) (row₀ : Nat)
    (hm : store row₀ = none) :
    ∀ (L : List Nat) (acc : PGMImage), row₀ < acc.h →
      acc.data.length = acc.w * acc.h →
      (((L.foldl (assemble_step store) acc).data.drop (row₀ * acc.w)).take acc.w
        = (acc.data.drop (row₀ * acc.w)).take acc.w) := by
  intro L
  induction L with
  | nil => intro acc h1 h2; rfl
  | cons r L ih =>
    intro acc h1 h2
    rw [List.foldl_cons]
    have hw := assemble_step_w store acc r
    have hh := assemble_step_h store acc r
    have hl := assemble_step_length store acc r h2
    have hstep : ((assemble_step store acc r).data.drop (row₀ * acc.w)).take acc.w
        = (acc.data.drop (row₀ * acc.w)).take acc.w := by
      rw [assemble_step]
      cases hsr : store r
      · rfl
      · have hner : r ≠ row₀ := fun he => by rw [he, hm] at hsr; exact Option.noConfusion hsr
        exact set_pixel_row_slice_other acc r _ row₀ h2 hner h1
    have := ih (assemble_step store acc r) (by rw [hh]; exact h1)
      (by rw [hw, hh]; exact hl)
    rw [hw] at this
    rw [this, hstep]

lemma replicate_slice (w h row : Nat) (hrow : row < h) :
    ((List.replicate (w * h) (0 : Nat)).drop (row * w)).take w = List.replicate w 0 := by
  rw [List.drop_replicate, List.take_replicate]
  congr 1
  have := row_bound row w h hrow
  omega

lemma assemble_missing_row (store : Nat → Option (List Nat)) (img : PGMImage)
    (row : Nat) (hrow : row < img.h) (hmiss : store row = none) :
    (assemble_result store img).get_pixel_row row = List.replicate img.w 0 := by
  have hinit : (⟨img.w, img.h, img.maxv,
      List.replicate (img.w * img.h) 0⟩ : PGMImage).data.length
      = img.w * img.h := by simp
  have hbasic := assemble_fold_basic store (List.range img.h)
    ⟨img.w, img.h, img.maxv, List.replicate (img.w * img.h) 0⟩ hinit
  have hslice := assemble_fold_slice store row hmiss (List.range img.h)
    ⟨img.w, img.h, img.maxv, List.replicate (img.w * img.h) 0⟩ hrow hinit
  have hX_h : (assemble_result store img).h = img.h := hbasic.2.1
  have hX_w : (assemble_result store img).w = img.w := hbasic.1
  have hslice' : ((assemble_result store img).data.drop (row * img.w)).take img.w
      = ((List.replicate (img.w * img.h) (0 : Nat)).drop (row * img.w)).take img.w :=
    hslice
  rw [PGMImage.get_pixel_row, if_pos (by rw [hX_h]; exact hrow), hX_w, hslice']
  exact replicate_slice img.w img.h row hrow

/-- C10: assemble_result always returns an image with the source dimensions
whose buffer has length exactly w * h, and every row index below the height
that is absent from the result store appears in the output as an all-zero
row, because the output buffer is zero-initialized before rows are copied. -/
theorem assemble_result_spec (store : Nat → Option (List Nat)) (img : PGMImage) :
    (assemble_result store img).w = img.w
    ∧ (assemble_result store img).h = img.h
    ∧ (assemble_result store img).data.length = img.w * img.h
    ∧ ∀ row, row < img.h → store row = none →
        (assemble_result store img).get_pixel_row row = List.replicate img.w 0 := by
  have hinit : (⟨img.w, img.h, img.maxv,
      List.replicate (img.w * img.h) 0⟩ : PGMImage).data.length
      = img.w * img.h := by simp
  have hbasic := assemble_fold_basic store (List.range img.h)
    ⟨img.w, img.h, img.maxv, List.replicate (img.w * img.h) 0⟩ hinit
  exact ⟨hbasic.1, hbasic.2.1, hbasic.2.2.2,
    fun row hrow hmiss => assemble_missing_row store img row hrow hmiss⟩

/-- Witness for assemble_result_spec: a 1 by 2 image whose store holds only
row 0, so row 1 of the assembled output is the zero row. -/
theorem assemble_result_spec_witness :
    (assemble_result (fun r => if r = 0 then some [7] else none) ⟨1, 2, 255, [9, 9]⟩).w = 1
    ∧ (assemble_result (fun r => if r = 0 then some [7] else none) ⟨1, 2, 255, [9, 9]⟩).h = 2
    ∧ (assemble_result (fun r => if r = 0 then some [7] else none)
        ⟨1, 2, 255, [9, 9]⟩).data.length = 1 * 2
    ∧ (1 < 2 ∧ (fun r => if r = 0 then some [7] else none) 1 = (none : Option (List Nat)))
    ∧ (assemble_result (fun r => if r = 0 then some [7] else none)
        ⟨1, 2, 255, [9, 9]⟩).get_pixel_row 1 = List.replicate 1 0 := by
  obtain ⟨h1, h2, h3, h4⟩ :=
    assemble_result_spec (fun r => if r = 0 then some [7] else none) ⟨1, 2, 255, [9, 9]⟩
  exact ⟨h1, h2, h3, ⟨by decide, rfl⟩, h4 1 (by decide) rfl⟩

/-- Outcome of main_worker as observable at the process boundary: either the
assembled image was persisted or the process exited with a failure stage. -/
inductive JobOutcome where
  | saved (img : PGMImage)
  | failed (stage : String)
deriving DecidableEq, Repr

/-- Tail of main_worker after the pool signals completion (worker.py
317-333): assemble the result, stop the threads, then save the assembled
image unconditionally.  save_to_file's boolean reflects only filesystem
success, abstracted as `saveOk`; no branch between assembly and saving
consults the result store for missing rows. -/
def main_worker_finish (saveOk : Bool) (store : Nat → Option (List Nat))
    (image : PGMImage) : JobOutcome :=
  let result_image := assemble_result store image
  if saveOk then .saved result_image else .failed "persistence"

/-- C1 counterexample: for the 1 by 2 image with an empty result store, row 0
is missing from the store, yet main_worker still persists the (zero-filled)
assembled image — the job is not reported failed and the image is saved,
contradicting the claim that assembly gaps prevent persistence. -/
theorem assemble_gap_still_saves :
    (fun _ : Nat => (none : Option (List Nat))) 0 = none
    ∧ 0 < (⟨1, 2, 255, [10, 20]⟩ : PGMImage).h
    ∧ main_worker_finish true (fun _ => none) ⟨1, 2, 255, [10, 20]⟩
        = .saved ⟨1, 2, 255, [0, 0]⟩ :=
  ⟨rfl, by decide, by decide⟩

/-- C1 amended: when a row below the height is missing from the result store
at assembly time, assemble_result does not signal any failure to its caller;
it returns an image in which the missing row is zero-filled, and main_worker
persists that image whenever the filesystem save succeeds — the job is
reported failed only on filesystem failure, never because of the gap. -/
theorem assemble_gap_behavior (store : Nat → Option (List Nat)) (img : PGMImage)
    (saveOk : Bool) (row : Nat) (hrow : row < img.h) (hmiss : store row = none) :
    main_worker_finish saveOk store img
      = (if saveOk then .saved (assemble_result store img) else .failed "persistence")
    ∧ (assemble_result store img).get_pixel_row row = List.replicate img.w 0 :=
  ⟨rfl, assemble_missing_row store img row hrow hmiss⟩

/-- Witness for assemble_gap_behavior at the empty store and a 1 by 2 image. -/
theorem assemble_gap_behavior_witness :
    (0 < (⟨1, 2, 255, [10, 20]⟩ : PGMImage).h
      ∧ (fun _ : Nat => (none : Option (List Nat))) 0 = none)
    ∧ (main_worker_finish true (fun _ => none) ⟨1, 2, 255, [10, 20]⟩
        = (if true then .saved (assemble_result (fun _ => none) ⟨1, 2, 255, [10, 20]⟩)
            else .failed "persistence")
      ∧ (assemble_result (fun _ => none) ⟨1, 2, 255, [10, 20]⟩).get_pixel_row 0
          = List.replicate 1 0) :=
  ⟨⟨by decide, rfl⟩,
    assemble_gap_behavior (fun _ => none) ⟨1, 2, 255, [10, 20]⟩ true 0 (by decide) rfl⟩

/-- Identity of a synchronization object (a threading.Lock or
threading.Semaphore instance); two objects are the same lock exactly when
their identities coincide.  Fresh identities come from an allocation
counter threaded through construction. -/
structure SyncObj where
  id : Nat
deriving DecidableEq, Repr

/-- WorkerThread as built by WorkerThread.__init__ (worker.py 36-51).  The
constructor receives the pool's queue, store, mutex and both semaphores;
lines 42-47 and 49-50 bind the parameters, but line 48 binds self.mutex to a
freshly constructed threading.Lock instead of the mutex parameter.  Object
references are modelled by SyncObj identities; `alloc` is the next unused
identity, and the returned pair carries the advanced allocator. -/
structure WorkerThread where
  thread_id : Nat
  task_queue : SyncObj
  result_data : SyncObj
  image : PGMImage
  mode : Int
  t1 : Nat
  t2 : Nat
  mutex : SyncObj
  semaphore : SyncObj
  completion_semaphore : SyncObj
  running : Bool
deriving DecidableEq, Repr

/-- WorkerThread.__init__ (worker.py 36-51): note `mutex := ⟨alloc⟩`, a fresh
lock, while `semaphore` and `completion_semaphore` are the passed objects —
the direct rendering of line 48 versus lines 49-50. -/
def WorkerThread.init (thread_id : Nat) (task_queue result_data : SyncObj)
    (image : PGMImage) (mode : Int) (t1 t2 : Nat)
    (mutex semaphore completion_semaphore : SyncObj) (alloc : Nat) :
    WorkerThread × Nat :=
  (⟨thread_id, task_queue, result_data, image, mode, t1, t2,
    ⟨alloc⟩, semaphore, completion_semaphore, true⟩, alloc + 1)

/-- ParallelImageProcessor (worker.py 101-113): the pool-owned objects.
__init__ allocates the task queue, result dict, mutex and the two counting
semaphores as five fresh objects. -/
structure ParallelImageProcessor where
  nthreads : Nat
  threads : List WorkerThread
  task_queue : SyncObj
  result_data : SyncObj
  mutex : SyncObj
  semaphore : SyncObj
  completion_semaphore : SyncObj
  alloc : Nat
deriving DecidableEq, Repr

/-- ParallelImageProcessor.__init__ (worker.py 106-113) starting from
allocator state 0. -/
def ParallelImageProcessor.init (nthreads : Nat) : ParallelImageProcessor :=
  ⟨nthreads, [], ⟨0⟩, ⟨1⟩, ⟨2⟩, ⟨3⟩, ⟨4⟩, 5⟩

/-- ParallelImageProcessor.start_threads (worker.py 141-160): constructs one
WorkerThread per index in range(nthreads), passing the pool's queue, store,
mutex and semaphores to each constructor. -/
def ParallelImageProcessor.start_threads (p : ParallelImageProcessor)
    (image : PGMImage) (mode : Int) (t1 t2 : Nat) : ParallelImageProcessor :=
  let built := (List.range p.nthreads).foldl
    (fun (acc : List WorkerThread × Nat) i =>
      let tn := WorkerThread.init i p.task_queue p.result_data image mode t1 t2
        p.mutex p.semaphore p.completion_semaphore acc.2
      (acc.1 ++ [tn.1], tn.2))
    ([], p.alloc)
  { p with threads := built.1, alloc := built.2 }

/-- C2 counterexample (the claim is false of the code): in the pool built by
start_threads with the default four workers, every worker's publishing lock
is a private fresh lock, not the pool's mutex — while the queue, store and
both semaphores are correctly shared.  Evaluated at a concrete 1 by 1 image
and negative mode. -/
theorem worker_mutex_not_shared :
    (((ParallelImageProcessor.init 4).start_threads ⟨1, 1, 255, [0]⟩ 0 0 0).threads.length = 4)
    ∧ (∀ t ∈ ((ParallelImageProcessor.init 4).start_threads ⟨1, 1, 255, [0]⟩ 0 0 0).threads,
        t.mutex ≠ ((ParallelImageProcessor.init 4).start_threads ⟨1, 1, 255, [0]⟩ 0 0 0).mutex)
    ∧ (∀ t ∈ ((ParallelImageProcessor.init 4).start_threads ⟨1, 1, 255, [0]⟩ 0 0 0).threads,
        t.semaphore = ((ParallelImageProcessor.init 4).start_threads ⟨1, 1, 255, [0]⟩ 0 0 0).semaphore
        ∧ t.task_queue = ((ParallelImageProcessor.init 4).start_threads ⟨1, 1, 255, [0]⟩ 0 0 0).task_queue
        ∧ t.result_data = ((ParallelImageProcessor.init 4).start_threads ⟨1, 1, 255, [0]⟩ 0 0 0).result_data) :=
  ⟨by decide, by decide, by decide⟩

/-- Pre-pool phase of main_worker (worker.py 284-307): the mode-1 threshold
check, then the effective mode (a CLI mode of -1 means use the received
one), then rows_per_task and task creation.  Returns the effective mode and
the list of tasks enqueued by create_tasks; no branch rejects an
unrecognized mode before enqueueing. -/
def main_worker_pre (mode : Int) (t1 t2 : Option Nat)
    (received : PGMImage × Nat × Nat × Nat) (nthreads : Nat) :
    Except String (Int × List Task) :=
  if mode = 1 ∧ (t1 = none ∨ t2 = none) then
    .error "Modo slice requer parametros t1 e t2"
  else
    let image := received.1
    let emode : Int := if mode = -1 then (received.2.1 : Int) else mode
    .ok (emode, create_tasks image.h (max 1 (image.h / (nthreads * 4))))

/-- C3 counterexample: a job with mode 2 (neither 0 nor 1) on an image of
height 8 with one worker passes every pre-pool check and enqueues four
tasks — the claim that no Task is ever placed on the task queue fails. -/
theorem invalid_mode_still_enqueues :
    main_worker_pre 2 none none (⟨2, 8, 255, List.replicate 16 0⟩, 0, 0, 0) 1
      = .ok (2, create_tasks 8 2)
    ∧ (create_tasks 8 2).length = 4
    ∧ process_image_rows ⟨2, 8, 255, List.replicate 16 0⟩ 0 2 2 0 0
        = .error ("Modo de processamento invalido: " ++ toString (2 : Int)) :=
  ⟨rfl, by decide, rfl⟩

/-- C3 amended: a job whose CLI mode is not 1 always passes main_worker's
pre-pool checks, and its tasks are enqueued whatever the effective mode is;
when the effective mode is neither 0 nor 1, the mode dispatcher rejects it
only per task at processing time, raising an invalid-mode error for every
task, so the rejection happens after enqueueing, not before. -/
theorem invalid_mode_rejected_at_processing (mode : Int) (t1 t2 : Option Nat)
    (received : PGMImage × Nat × Nat × Nat) (nthreads : Nat) (hm1 : mode ≠ 1) :
    main_worker_pre mode t1 t2 received nthreads
      = .ok (if mode = -1 then (received.2.1 : Int) else mode,
          create_tasks received.1.h (max 1 (received.1.h / (nthreads * 4))))
    ∧ ((if mode = -1 then (received.2.1 : Int) else mode) ≠ 0 →
        (if mode = -1 then (received.2.1 : Int) else mode) ≠ 1 →
        ∀ (img : PGMImage) (rs re a b : Nat),
          process_image_rows img rs re
              (if mode = -1 then (received.2.1 : Int) else mode) a b
            = .error ("Modo de processamento invalido: "
                ++ toString (if mode = -1 then (received.2.1 : Int) else mode))) := by
  constructor
  · rw [main_worker_pre, if_neg (by simp [hm1])]
  · intro h0 h1 img rs re a b
    rw [process_image_rows, if_neg h0, if_neg h1]

/-- Witness for invalid_mode_rejected_at_processing at CLI mode 2. -/
theorem invalid_mode_rejected_at_processing_witness :
    (2 : Int) ≠ 1
    ∧ (main_worker_pre 2 none none (⟨2, 8, 255, List.replicate 16 0⟩, 0, 0, 0) 1
        = .ok (if (2 : Int) = -1 then ((0 : Nat) : Int) else 2,
            create_tasks (⟨2, 8, 255, List.replicate 16 0⟩ : PGMImage).h
              (max 1 ((⟨2, 8, 255, List.replicate 16 0⟩ : PGMImage).h / (1 * 4))))
      ∧ ((if (2 : Int) = -1 then ((0 : Nat) : Int) else 2) ≠ 0 →
          (if (2 : Int) = -1 then ((0 : Nat) : Int) else 2) ≠ 1 →
          ∀ (img : PGMImage) (rs re a b : Nat),
            process_image_rows img rs re (if (2 : Int) = -1 then ((0 : Nat) : Int) else 2) a b
              = .error ("Modo de processamento invalido: "
                  ++ toString (if (2 : Int) = -1 then ((0 : Nat) : Int) else 2)))) :=
  ⟨by decide,
    invalid_mode_rejected_at_processing 2 none none
      (⟨2, 8, 255, List.replicate 16 0⟩, 0, 0, 0) 1 (by decide)⟩

/-- Local state of one worker thread inside WorkerThread.run (worker.py
53-98): idle before the semaphore acquire, holding a permit, holding a
dequeued task, holding the processed buffer, or having published but not yet
released the completion semaphore. -/
inductive WorkerLocal where
  | idle
  | permitted
  | got (t : Task)
  | processed (t : Task) (buf : List Nat)
  | published (t : Task)
deriving DecidableEq, Repr

/-- Local state of the pool owner in main_worker between starting the
threads and finishing wait_for_completion (worker.py 311-315): before the
total_tasks = task_queue.qsize() read, or inside wait_for_completion with a
remaining number of completion-semaphore acquires; `waiting 0` is the moment
wait_for_completion returns and completion is signaled. -/
inductive OwnerLocal where
  | beforeRead
  | waiting (remaining : Nat)
deriving DecidableEq, Repr

/-- Shared state of the single-worker pool between start_threads and
assembly: the task queue, the available-work semaphore counter, the result
store (insertion-ordered row entries of the Python dict), the
completed-work semaphore counter, and the two thread-local states. -/
structure PoolState where
  queue : List Task
  sem_avail : Nat
  store : List (Nat × List Nat)
  sem_done : Nat
  worker : WorkerLocal
  owner : OwnerLocal
deriving DecidableEq, Repr

/-- Python dict assignment store[k] = v: replace the existing entry for k or
append a new one. -/
def dictInsert (store : List (Nat × List Nat)) (k : Nat) (v : List Nat) :
    List (Nat × List Nat) :=
  if store.any fun p => p.1 = k then
    store.map fun p => if p.1 = k then (k, v) else p
  else store ++ [(k, v)]

/-- Publishing loop of WorkerThread.run (worker.py 80-84): one store entry
per row of the task, slicing the produced buffer into rows of width w. -/
def publishRows (w : Nat) (t : Task) (buf : List Nat)
    (store : List (Nat × List Nat)) : List (Nat × List Nat) :=
  (List.range (t.row_end - t.row_start)).foldl
    (fun st i => dictInsert st (t.row_start + i) ((buf.drop (i * w)).take w)) store

/-- Atomic events of the worker loop (worker.py 59-96) and of the owner's
completion path (worker.py 314 and 162-175), for a pool with one worker. -/
inductive Ev where
  | wAcquire
  | wDequeue
  | wProcess
  | wPublish
  | wComplete
  | oRead
  | oAcquire
deriving DecidableEq, Repr

/-- One enabled interleaving step of the single-worker pool.  wAcquire is
the semaphore.acquire at line 62; wDequeue the queue.get at line 66,
including the Empty branch (release and loop, lines 67-69); wProcess runs
process_image_rows (line 74), with the exception handler of lines 94-96 on
error; wPublish the mutex-guarded store inserts (lines 80-84); wComplete
the completion_semaphore.release (line 92); oRead the owner's
total_tasks = task_queue.qsize() (line 314); oAcquire one
completion_semaphore.acquire of wait_for_completion (lines 172-173).
Returns none when the event is not enabled in the given state. -/
def step (image : PGMImage) (mode : Int) (t1 t2 : Nat) (s : PoolState) :
    Ev → Option PoolState
  | .wAcquire =>
    match s.worker, s.sem_avail with
    | .idle, n + 1 => some { s with worker := .permitted, sem_avail := n }
    | _, _ => none
  | .wDequeue =>
    match s.worker, s.queue with
    | .permitted, t :: rest => some { s with worker := .got t, queue := rest }
    | .permitted, [] =>
      some { s with worker := .idle, sem_avail := s.sem_avail + 1 }
    | _, _ => none
  | .wProcess =>
    match s.worker with
    | .got t =>
      match process_image_rows image t.row_start t.row_end mode t1 t2 with
      | .ok buf => some { s with worker := .processed t buf }
      | .error _ =>
        some { s with worker := .idle, sem_avail := s.sem_avail + 1 }
    | _ => none
  | .wPublish =>
    match s.worker with
    | .processed t buf =>
      some { s with
        worker := WorkerLocal.published t,
        store := publishRows image.w t buf s.store }
    | _ => none
  | .wComplete =>
    match s.worker with
    | .published _ =>
      some { s with worker := .idle, sem_done := s.sem_done + 1 }
    | _ => none
  | .oRead =>
    match s.owner with
    | .beforeRead => some { s with owner := .waiting s.queue.length }
    | _ => none
  | .oAcquire =>
    match s.owner, s.sem_done with
    | .waiting (n + 1), m + 1 =>
      some { s with owner := .waiting n, sem_done := m }
    | _, _ => none

/-- Execution of a schedule: fold the step function over the event list,
failing if any event is not enabled. -/
def run (image : PGMImage) (mode : Int) (t1 t2 : Nat) (s : PoolState)
    (evs : List Ev) : Option PoolState :=
  evs.foldlM (step image mode t1 t2) s

/-- Pool state right after create_tasks and start_threads (worker.py
305-311): all tasks enqueued, the available-work semaphore released once per
task, empty store, completion counter zero, the worker idle and the owner
about to read the queue size. -/
def initPoolState (image : PGMImage) (rows_per_task : Nat) : PoolState :=
  { queue := create_tasks image.h rows_per_task,
    sem_avail := (create_tasks image.h rows_per_task).length,
    store := [],
    sem_done := 0,
    worker := .idle,
    owner := .beforeRead }

/-- C4 is false of the code: main_worker reads total_tasks from
task_queue.qsize() after the workers have started, so a worker that dequeues
a task before that read lowers the owner's wait target below the number of
tasks the partitioner created.  For a 1 by 2 image, one worker and
rows_per_task = max 1 (2 / (1 * 4)) = 1, two tasks are created, yet in the
schedule below the owner reads qsize = 1, waits for a single completion and
signals completion while the result store holds only one of the two row
entries. -/
theorem wait_for_completion_qsize_race :
    (max 1 ((⟨1, 2, 255, [10, 20]⟩ : PGMImage).h / (1 * 4)) = 1
      ∧ (initPoolState ⟨1, 2, 255, [10, 20]⟩ 1).queue.length = 2)
    ∧ (run ⟨1, 2, 255, [10, 20]⟩ 0 0 0 (initPoolState ⟨1, 2, 255, [10, 20]⟩ 1)
        [.wAcquire, .wDequeue, .oRead, .wProcess, .wPublish, .wComplete, .oAcquire]).map
        (fun s => (s.owner, s.store.length)) = some (.waiting 0, 1)
    ∧ (1 : Nat) ≠ (⟨1, 2, 255, [10, 20]⟩ : PGMImage).h :=
  ⟨⟨by decide, by decide⟩, by decide, by decide⟩

end PIPS
